import Mathlib

/-!
Shallow embedding of the SLS repair-loop scheduler of `src/ast/sls/bv_sls.cpp`.

The scheduler's external collaborators — the `Terms` store (assertions, term
list, parent index), the bit-vector `Evaluator` (current/recomputed values,
fixed bits, local repair), the host's cooperative-cancellation predicate
`m.inc()` and the seeded pseudo-random stream `m_rand` — are modelled as an
explicit environment of functions over an abstract evaluator-state type `σ`.
`m_rand` and `m.inc` are modelled as deterministic streams indexed by a call
counter carried in the scheduler state, so that every source of randomness and
interruption is explicit.  The repair sets `m_repair_down` / `m_repair_up` are
modelled as duplicate-free lists with idempotent insertion, positional lookup
and erase, matching the `indexed_uint_set` operations the source relies on.
The verbose output of the source (per-move pick lines at verbosity 20 and the
restart `trace()` lines at verbosity 2) is reflected as observable `picks` and
`traceLog` fields of the scheduler state.
-/

namespace BvSls

/-- Sorts the scheduler distinguishes (`m.is_bool`, `bv.is_bv`, anything else). -/
inductive ESort where
  | bool : ESort
  | bv : ESort
  | other : ESort
deriving DecidableEq

/-- An expression node: stable id, ordered list of child ids, and sort. -/
structure Node where
  id : Nat
  args : List Nat
  sort : ESort
deriving DecidableEq

/-- Three-valued result mirroring `lbool` (`l_false`, `l_undef`, `l_true`). -/
inductive LBool where
  | lfalse : LBool
  | lundef : LBool
  | ltrue : LBool
deriving DecidableEq

/-- The environment of external collaborators consumed by the scheduler:
the `Terms` interface (`assertions`, `terms`, `term`, `parents`,
`isAssertion`), the `Evaluator` interface (`bval0`, `bval1`, `wvalEq` for
`wval0(e).eq(wval1(e))`, `canEval1`, `set`, `tryRepair`, `repairUp`,
`isFixed0`, `fixedBit`/`bitsBit` for `w.get(w.fixed, i)`/`w.get(w.bits, i)`,
and `initEval` which consults an oracle that is itself allowed to read the
evaluator state current at query time and to consume the random stream), the
host interrupt predicate `inc` and the seeded random stream `rand`, both
indexed by a call counter. -/
structure Env (σ : Type) where
  assertions : List Node
  terms : List (Option Node)
  term : Nat → Node
  parents : Nat → List Nat
  isAssertion : Nat → Bool
  bval0 : σ → Nat → Bool
  bval1 : σ → Nat → Bool
  wvalEq : σ → Nat → Bool
  canEval1 : σ → Nat → Bool
  set : σ → Nat → Bool → σ
  tryRepair : σ → Nat → Nat → σ × Bool
  repairUp : σ → Nat → σ
  isFixed0 : σ → Nat → Bool
  fixedBit : σ → Nat → Nat → Bool
  bitsBit : σ → Nat → Nat → Bool
  initEval : σ → (σ → Node → Nat → Nat → Bool × Nat) → Nat → σ × Nat
  inc : Nat → Bool
  rand : Nat → Nat

/-- The scheduler's mutable state: the two repair sets, the evaluator state,
the two stream counters, the `m_stats` counters, and the observable logs
(the per-move pick line of verbosity 20 and the restart line of `trace()`). -/
structure SchedState (σ : Type) where
  down : List Nat
  up : List Nat
  eval : σ
  randK : Nat
  incK : Nat
  moves : Nat
  restarts : Nat
  picks : List (Bool × Nat)
  traceLog : List (Nat × Nat × Nat)

variable {σ : Type}

/-- Repair-set insertion (`indexed_uint_set::insert`): idempotent. -/
def rsInsert (s : List Nat) (x : Nat) : List Nat :=
  if x ∈ s then s else s ++ [x]

/-- Repair-set removal (`indexed_uint_set::remove`): no-op when absent. -/
def rsRemove (s : List Nat) (x : Nat) : List Nat :=
  s.erase x

/-- `sls::eval_is_correct`: false when `can_eval1` fails; otherwise compares
`bval0`/`bval1` on Booleans and `wval0`/`wval1` on bit-vectors; any other
sort is the `UNREACHABLE()` branch (which returns false). -/
def eval_is_correct (E : Env σ) (s : σ) (e : Node) : Bool :=
  if E.canEval1 s e.id = false then false
  else
    match e.sort with
    | ESort.bool => E.bval0 s e.id == E.bval1 s e.id
    | ESort.bv => E.wvalEq s e.id
    | ESort.other => false

/-- First loop of `sls::init_repair`: for each assertion `a` with `bval0(a)`
false, `set(a, true)` and insert `a` into the down set. -/
def init_repair_asserts (E : Env σ) : List Node → σ × List Nat → σ × List Nat
  | [], sd => sd
  | a :: rest, (s, d) =>
    if E.bval0 s a.id = false then
      init_repair_asserts E rest (E.set s a.id true, rsInsert d a.id)
    else
      init_repair_asserts E rest (s, d)

/-- Second loop of `sls::init_repair`: every non-null term that is not
`eval_is_correct` is inserted into the down set. -/
def init_repair_terms (E : Env σ) (s : σ) : List (Option Node) → List Nat → List Nat
  | [], d => d
  | none :: rest, d => init_repair_terms E s rest d
  | some t :: rest, d =>
    if eval_is_correct E s t = false then
      init_repair_terms E s rest (rsInsert d t.id)
    else
      init_repair_terms E s rest d

/-- `sls::init_repair`: reset both repair sets, then run the two loops.
Returns the evaluator state together with the rebuilt down and up sets. -/
def init_repair (E : Env σ) (s : σ) : σ × List Nat × List Nat :=
  let sd := init_repair_asserts E E.assertions (s, [])
  (sd.1, init_repair_terms E sd.1 E.terms sd.2, [])

/-- The keep-mostly oracle built inside `sls::reinit_eval`: on query
`(e, i)` with evaluator state `s` (read at query time, the C++ lambda
captures `m_eval` by reference) and random counter `k`, return the fixed or
kept or freshly random bit together with the advanced counter.  Mirrors the
short-circuit evaluation of `is_fixed0(e) || should_keep()`: a fixed node
answers without consuming randomness. -/
def reinit_oracle (E : Env σ) (s : σ) (e : Node) (i : Nat) (k : Nat) : Bool × Nat :=
  match e.sort with
  | ESort.bool =>
    if E.isFixed0 s e.id then (E.bval0 s e.id, k)
    else if 98 ≤ E.rand k % 100 then (E.bval0 s e.id, k + 1)
    else (decide (E.rand (k + 1) % 2 = 0), k + 2)
  | ESort.bv =>
    if E.fixedBit s e.id i then (E.bitsBit s e.id i, k)
    else if 98 ≤ E.rand k % 100 then (E.bitsBit s e.id i, k + 1)
    else (decide (E.rand (k + 1) % 2 = 0), k + 2)
  | ESort.other => (decide (E.rand k % 2 = 0), k + 1)

/-- `sls::reinit_eval`: hand the keep-mostly oracle to the evaluator's
`init_eval` and rebuild the repair sets with `init_repair`. -/
def reinit_eval (E : Env σ) (st : SchedState σ) : SchedState σ :=
  let sk := E.initEval st.eval (fun s e i k => reinit_oracle E s e i k) st.randK
  let r := init_repair E sk.1
  { st with eval := r.1, down := r.2.1, up := r.2.2, randK := sk.2 }

/-- `sls::next_to_repair`: pick a uniformly random element of the down set if
non-empty, else of the up set if non-empty, else no node; the returned flag
is `!m_repair_down.empty()`. -/
def next_to_repair (E : Env σ) (st : SchedState σ) : (Bool × Option Node) × SchedState σ :=
  if st.down ≠ [] then
    ((true, some (E.term (st.down.getD (E.rand st.randK % st.down.length) 0))),
      { st with randK := st.randK + 1 })
  else if st.up ≠ [] then
    ((false, some (E.term (st.up.getD (E.rand st.randK % st.up.length) 0))),
      { st with randK := st.randK + 1 })
  else ((false, none), st)

/-- `sls::try_repair_down(app*, unsigned)`: ask the evaluator to repair child
`i` of `e`; on success insert the child into the down set and all its parents
into the up set. -/
def try_repair_down1 (E : Env σ) (e : Node) (i : Nat) (st : SchedState σ) : Bool × SchedState σ :=
  let child := e.args.getD i 0
  let sb := E.tryRepair st.eval e.id i
  if sb.2 then
    (true,
      { st with eval := sb.1,
                down := rsInsert st.down child,
                up := (E.parents child).foldl rsInsert st.up })
  else (false, { st with eval := sb.1 })

/-- The `for (unsigned i = 0; i < n; ++i)` loop of `sls::try_repair_down(app*)`:
try children at cyclic positions `(i + s) % n`, stopping at the first success. -/
def trdLoop (E : Env σ) (e : Node) (n s : Nat) : Nat → Nat → SchedState σ → Bool × SchedState σ
  | _, 0, st => (false, st)
  | i, fuel + 1, st =>
    let r := try_repair_down1 E e ((i + s) % n) st
    if r.1 then (true, r.2) else trdLoop E e n s (i + 1) fuel r.2

/-- `sls::try_repair_down(app*)`: with `n > 0` children, draw a random start
`s` and run the cyclic loop; if no child was repairable (or there are no
children) move `e` from the down set to the up set. -/
def try_repair_down (E : Env σ) (e : Node) (st : SchedState σ) : SchedState σ :=
  let n := e.args.length
  if 0 < n then
    let s := E.rand st.randK % n
    let st1 := { st with randK := st.randK + 1 }
    let r := trdLoop E e n s 0 n st1
    if r.1 then r.2
    else { r.2 with down := rsRemove r.2.down e.id, up := rsInsert r.2.up e.id }
  else
    { st with down := rsRemove st.down e.id, up := rsInsert st.up e.id }

/-- `sls::try_repair_up`: remove `e` from the up set; an assertion is pushed
back into the down set, otherwise `repair_up` recomputes `e`'s value and all
of `e`'s parents are inserted into the up set. -/
def try_repair_up (E : Env σ) (e : Node) (st : SchedState σ) : SchedState σ :=
  let st1 := { st with up := rsRemove st.up e.id }
  if E.isAssertion e.id then
    { st1 with down := rsInsert st1.down e.id }
  else
    { st1 with eval := E.repairUp st1.eval e.id,
               up := (E.parents e.id).foldl rsInsert st1.up }

/-- The loop of `sls::search`, with `fuel` the remaining move budget
(`m_config.m_max_repairs` minus the moves already made): consult `m.inc()`,
count the move, pick a node; an absent pick returns `l_true`; a pick found
correct is dropped from its set; otherwise dispatch the down or up repair. -/
def search_loop (E : Env σ) : Nat → SchedState σ → LBool × SchedState σ
  | 0, st => (LBool.lundef, st)
  | fuel + 1, st =>
    if E.inc st.incK = false then (LBool.lundef, { st with incK := st.incK + 1 })
    else
      let st1 := { st with incK := st.incK + 1, moves := st.moves + 1 }
      let r := next_to_repair E st1
      match r.1.2 with
      | none => (LBool.ltrue, r.2)
      | some e =>
        let st2 := { r.2 with picks := r.2.picks ++ [(r.1.1, e.id)] }
        if eval_is_correct E st2.eval e then
          if r.1.1 then search_loop E fuel { st2 with down := rsRemove st2.down e.id }
          else search_loop E fuel { st2 with up := rsRemove st2.up e.id }
        else if r.1.1 then search_loop E fuel (try_repair_down E e st2)
        else search_loop E fuel (try_repair_up E e st2)

/-- `sls::search` with move budget `maxRepairs`. -/
def search (E : Env σ) (maxRepairs : Nat) (st : SchedState σ) : LBool × SchedState σ :=
  search_loop E maxRepairs st

/-- `sls::trace`: emit one `(bvsls :restarts _ :repair-down _ :repair-up _)`
line, reflected as an appended `traceLog` entry. -/
def trace (st : SchedState σ) : SchedState σ :=
  { st with traceLog := st.traceLog ++ [(st.restarts, st.down.length, st.up.length)] }

/-- The do-while loop of `sls::operator()`: run `search`; a definite answer
breaks out; otherwise `trace()`, `reinit_eval()`, then the guard
`m.inc() && m_stats.m_restarts++ < m_config.m_max_restarts` (note the
post-increment: the comparison uses the pre-increment value, and the
increment happens only when `m.inc()` permitted). -/
def sls_loop (E : Env σ) (maxRepairs maxRestarts : Nat) : Nat → SchedState σ → LBool × SchedState σ
  | 0, st => (LBool.lundef, st)
  | fuel + 1, st =>
    let r := search E maxRepairs st
    match r.1 with
    | LBool.lundef =>
      let st1 := trace r.2
      let st2 := reinit_eval E st1
      if E.inc st2.incK = false then (LBool.lundef, { st2 with incK := st2.incK + 1 })
      else
        let st3 := { st2 with incK := st2.incK + 1, restarts := st2.restarts + 1 }
        if st2.restarts < maxRestarts then sls_loop E maxRepairs maxRestarts fuel st3
        else (LBool.lundef, st3)
    | r1 => (r1, r.2)

/-- `sls::operator()`: reset the statistics, then run the restart loop.  The
fuel `maxRestarts + 2` strictly dominates the loop's iteration count, whose
guard stops once the restart counter reaches `maxRestarts`. -/
def sls_run (E : Env σ) (maxRepairs maxRestarts : Nat) (st : SchedState σ) : LBool × SchedState σ :=
  sls_loop E maxRepairs maxRestarts (maxRestarts + 2) { st with moves := 0, restarts := 0 }

/-- The scheduler's configuration record (`m_config`). -/
structure Config where
  m_max_repairs : Nat
  m_max_restarts : Nat
deriving DecidableEq

/-- The parameter values read by `sls::updt_params` from `sls_params`. -/
structure SlsParams where
  max_restarts : Nat
  random_seed : Nat
deriving DecidableEq

/-- `sls::updt_params`: install `max_restarts` into the configuration and
reseed `m_rand` with `random_seed`; nothing else is read or checked. -/
def updt_params (p : SlsParams) (cfg : Config) (_seedState : Nat) : Config × Nat :=
  ({ cfg with m_max_restarts := p.max_restarts }, p.random_seed)

/-- Iterated state of the cyclic child-repair loop: `trdIterFrom E e n s i st m`
is the scheduler state after the tries at cyclic positions
`(i + 0 + s) % n, …, (i + m - 1 + s) % n` have been applied in order. -/
def trdIterFrom (E : Env σ) (e : Node) (n s i : Nat) (st : SchedState σ) : Nat → SchedState σ
  | 0 => st
  | m + 1 => (try_repair_down1 E e ((i + m + s) % n) (trdIterFrom E e n s i st m)).2

/-- A Boolean leaf node used by the concrete test environment. -/
def node1 : Node := ⟨1, [], ESort.bool⟩

/-- A Boolean internal node with `node1` as its only child. -/
def node2 : Node := ⟨2, [1], ESort.bool⟩

/-- A concrete environment over function-valued evaluator states: `node1` is
the only assertion, `node2` its only parent; evaluation state maps ids to
Booleans, `set` is pointwise update, `tryRepair` always fails. -/
def baseEnv : Env (Nat → Bool) where
  assertions := [node1]
  terms := [some node2]
  term := fun x => if x = 2 then node2 else node1
  parents := fun x => if x = 1 then [2] else []
  isAssertion := fun x => x == 1
  bval0 := fun s x => s x
  bval1 := fun _ _ => true
  wvalEq := fun _ _ => true
  canEval1 := fun _ _ => true
  set := fun s x b => fun y => if y = x then b else s y
  tryRepair := fun s _ _ => (s, false)
  repairUp := fun s _ => s
  isFixed0 := fun _ _ => true
  fixedBit := fun _ _ _ => true
  bitsBit := fun _ _ _ => true
  initEval := fun s _ k => (s, k)
  inc := fun _ => true
  rand := fun _ => 0

/-- A variant of `baseEnv` whose `tryRepair` always succeeds. -/
def succEnv : Env (Nat → Bool) :=
  { baseEnv with tryRepair := fun s _ _ => (s, true) }

/-- Initial scheduler state for the concrete runs: empty repair sets,
all-false assignment, zeroed counters and logs. -/
def st0 : SchedState (Nat → Bool) :=
  ⟨[], [], fun _ => false, 0, 0, 0, 0, [], []⟩

/-- A scheduler state whose down set holds node 5. -/
def stDown5 : SchedState (Nat → Bool) :=
  { st0 with down := [5] }

/-- A scheduler state whose down set holds `node2`. -/
def stDown2 : SchedState (Nat → Bool) :=
  { st0 with down := [2] }

/-! ## Helper lemmas about the repair-set operations -/

theorem mem_rsInsert {s : List Nat} {x y : Nat} : y ∈ rsInsert s x ↔ y ∈ s ∨ y = x := by
  unfold rsInsert
  split
  · next h => exact ⟨Or.inl, fun h2 => h2.elim id (fun hy => hy ▸ h)⟩
  · next h => simp

theorem mem_foldl_rsInsert : ∀ (ps u : List Nat) (y : Nat),
    y ∈ ps.foldl rsInsert u ↔ y ∈ u ∨ y ∈ ps := by
  intro ps
  induction ps with
  | nil => simp
  | cons p ps ih =>
    intro u y
    simp only [List.foldl_cons, ih, mem_rsInsert, List.mem_cons]
    tauto

theorem getD_mem {l : List Nat} {i : Nat} (h : i < l.length) (d : Nat) : l.getD i d ∈ l := by
  rw [List.getD_eq_getElem l d h]
  exact List.getElem_mem h

theorem ntr_down_eq (E : Env σ) (st : SchedState σ) (h : st.down ≠ []) :
    next_to_repair E st
      = ((true, some (E.term (st.down.getD (E.rand st.randK % st.down.length) 0))),
         { st with randK := st.randK + 1 }) := by
  simp [next_to_repair, h]

theorem ntr_up_eq (E : Env σ) (st : SchedState σ) (h1 : st.down = []) (h2 : st.up ≠ []) :
    next_to_repair E st
      = ((false, some (E.term (st.up.getD (E.rand st.randK % st.up.length) 0))),
         { st with randK := st.randK + 1 }) := by
  simp [next_to_repair, h1, h2]

theorem ntr_none_eq (E : Env σ) (st : SchedState σ) (h1 : st.down = []) (h2 : st.up = []) :
    next_to_repair E st = ((false, none), st) := by
  simp [next_to_repair, h1, h2]

theorem trd1_success_eq (E : Env σ) (e : Node) (i : Nat) (st : SchedState σ)
    (hb : (E.tryRepair st.eval e.id i).2 = true) :
    try_repair_down1 E e i st
      = (true, { st with eval := (E.tryRepair st.eval e.id i).1,
                         down := rsInsert st.down (e.args.getD i 0),
                         up := (E.parents (e.args.getD i 0)).foldl rsInsert st.up }) := by
  simp [try_repair_down1, hb]

theorem trd1_fail_eq (E : Env σ) (e : Node) (i : Nat) (st : SchedState σ)
    (hb : (E.tryRepair st.eval e.id i).2 = false) :
    try_repair_down1 E e i st
      = (false, { st with eval := (E.tryRepair st.eval e.id i).1 }) := by
  simp [try_repair_down1, hb]

/-! ## Claim theorems -/

/-- C4: `next_to_repair` answers from the down set (flag `true`) whenever the
down set is non-empty, from the up set (flag `false`) only when the down set
is empty and the up set is not, returns no node exactly when both are empty,
and its Boolean flag is `true` precisely when the pick came from the down
set. -/
theorem next_to_repair_spec (E : Env σ) (st : SchedState σ) :
    (st.down ≠ [] →
      (next_to_repair E st).1.1 = true
      ∧ ∃ x ∈ st.down, (next_to_repair E st).1.2 = some (E.term x))
    ∧ (st.down = [] → st.up ≠ [] →
      (next_to_repair E st).1.1 = false
      ∧ ∃ x ∈ st.up, (next_to_repair E st).1.2 = some (E.term x))
    ∧ ((next_to_repair E st).1.2 = none ↔ st.down = [] ∧ st.up = [])
    ∧ ((next_to_repair E st).1.1 = true ↔ st.down ≠ []) := by
  by_cases hd : st.down = []
  · by_cases hu : st.up = []
    · rw [ntr_none_eq E st hd hu]
      refine ⟨fun h => absurd hd h, fun _ h => absurd hu h, ?_, ?_⟩
      · simp [hd, hu]
      · simp [hd]
    · have hlen : 0 < st.up.length := List.length_pos.mpr hu
      rw [ntr_up_eq E st hd hu]
      refine ⟨fun h => absurd hd h, fun _ _ => ⟨rfl, ?_⟩, ?_, ?_⟩
      · exact ⟨st.up.getD (E.rand st.randK % st.up.length) 0,
          getD_mem (Nat.mod_lt _ hlen) 0, rfl⟩
      · constructor
        · intro h
          simp at h
        · rintro ⟨-, h2⟩
          exact absurd h2 hu
      · simp [hd]
  · have hlen : 0 < st.down.length := List.length_pos.mpr hd
    rw [ntr_down_eq E st hd]
    refine ⟨fun _ => ⟨rfl, ?_⟩, fun h => absurd h hd, ?_, ?_⟩
    · exact ⟨st.down.getD (E.rand st.randK % st.down.length) 0,
        getD_mem (Nat.mod_lt _ hlen) 0, rfl⟩
    · constructor
      · intro h
        simp at h
      · rintro ⟨h1, -⟩
        exact absurd h1 hd
    · simp [hd]

theorem next_to_repair_spec_witness :
    (next_to_repair baseEnv stDown5).1.1 = true
    ∧ ∃ x ∈ stDown5.down, (next_to_repair baseEnv stDown5).1.2 = some (baseEnv.term x) :=
  (next_to_repair_spec baseEnv stDown5).1 (by decide)

/-- C3: whenever a move changes a node's `val0` — the evaluator's
`try_repair(e, i)` on child `c` answering `true` during a down repair, or
`repair_up(e)` being applied to a non-assertion during an up repair — every
direct parent of the changed node is in the up set when the move ends (and in
the down-repair case the changed child is additionally inserted into the down
set); the third conjunct shows the cyclic loop ends a successful down move in
exactly the state the successful child repair produced, so those insertions
survive to the end of the move. -/
theorem repair_moves_track_parents (E : Env σ) :
    (∀ (e : Node) (i : Nat) (st : SchedState σ),
      (try_repair_down1 E e i st).1 = true →
        e.args.getD i 0 ∈ (try_repair_down1 E e i st).2.down
        ∧ ∀ p ∈ E.parents (e.args.getD i 0), p ∈ (try_repair_down1 E e i st).2.up)
    ∧ (∀ (e : Node) (st : SchedState σ), E.isAssertion e.id = false →
        ∀ p ∈ E.parents e.id, p ∈ (try_repair_up E e st).up)
    ∧ (∀ (e : Node) (n s i fuel : Nat) (st : SchedState σ),
        (trdLoop E e n s i fuel st).1 = true →
          ∃ (j : Nat) (st1 : SchedState σ),
            (try_repair_down1 E e j st1).1 = true
            ∧ (trdLoop E e n s i fuel st).2 = (try_repair_down1 E e j st1).2) := by
  refine ⟨?_, ?_, ?_⟩
  · intro e i st h
    by_cases hb : (E.tryRepair st.eval e.id i).2 = true
    · rw [trd1_success_eq E e i st hb]
      exact ⟨mem_rsInsert.mpr (Or.inr rfl),
        fun p hp => (mem_foldl_rsInsert _ _ _).mpr (Or.inr hp)⟩
    · rw [trd1_fail_eq E e i st (by simpa using hb)] at h
      exact Bool.noConfusion h
  · intro e st h p hp
    simp only [try_repair_up, h]
    simp only [Bool.false_eq_true, if_false]
    exact (mem_foldl_rsInsert _ _ _).mpr (Or.inr hp)
  · intro e n s i fuel
    induction fuel generalizing i with
    | zero =>
      intro st h
      exact Bool.noConfusion h
    | succ fuel ih =>
      intro st h
      by_cases hb : (try_repair_down1 E e ((i + s) % n) st).1 = true
      · refine ⟨(i + s) % n, st, hb, ?_⟩
        simp only [trdLoop]
        rw [if_pos hb]
      · have hb2 : (try_repair_down1 E e ((i + s) % n) st).1 = false := by simpa using hb
        have h2 : (trdLoop E e n s (i + 1) fuel (try_repair_down1 E e ((i + s) % n) st).2).1
            = true := by
          simpa [trdLoop, hb2] using h
        obtain ⟨j, st1, hj1, hj2⟩ := ih (i + 1) _ h2
        refine ⟨j, st1, hj1, ?_⟩
        rw [← hj2]
        simp [trdLoop, hb2]

theorem repair_moves_track_parents_witness :
    (1 : Nat) ∈ (try_repair_down1 succEnv node2 0 st0).2.down
    ∧ (2 : Nat) ∈ (try_repair_down1 succEnv node2 0 st0).2.up := by
  have h := (repair_moves_track_parents succEnv).1 node2 0 st0 rfl
  exact ⟨h.1, h.2 2 (by decide)⟩

theorem init_repair_asserts_char (E : Env σ) (s0 : σ)
    (hset : ∀ (s : σ) (x : Nat) (b : Bool) (y : Nat),
      E.bval0 (E.set s x b) y = if y = x then b else E.bval0 s y) :
    ∀ (as : List Node) (s : σ) (d : List Nat),
      (∀ y, E.bval0 s y = true ↔ y ∈ d ∨ E.bval0 s0 y = true) →
      (∀ y, E.bval0 (init_repair_asserts E as (s, d)).1 y = true ↔
          y ∈ (init_repair_asserts E as (s, d)).2 ∨ E.bval0 s0 y = true)
      ∧ (∀ x, x ∈ (init_repair_asserts E as (s, d)).2 ↔
          x ∈ d ∨ ∃ a ∈ as, a.id = x ∧ E.bval0 s0 a.id = false) := by
  intro as
  induction as with
  | nil =>
    intro s d hinv
    refine ⟨hinv, fun x => ?_⟩
    simp [init_repair_asserts]
  | cons a rest ih =>
    intro s d hinv
    by_cases hb : E.bval0 s a.id = false
    · have hs0 : E.bval0 s0 a.id = false := by
        cases hs : E.bval0 s0 a.id
        · rfl
        · have h2 := (hinv a.id).mpr (Or.inr hs)
          rw [hb] at h2
          exact Bool.noConfusion h2
      have hinv2 : ∀ y, E.bval0 (E.set s a.id true) y = true ↔
          y ∈ rsInsert d a.id ∨ E.bval0 s0 y = true := by
        intro y
        rw [hset]
        by_cases hy : y = a.id
        · subst hy
          simp [mem_rsInsert]
        · rw [if_neg hy, hinv y, mem_rsInsert]
          constructor
          · rintro (h1 | h2)
            · exact Or.inl (Or.inl h1)
            · exact Or.inr h2
          · rintro ((h1 | h1) | h2)
            · exact Or.inl h1
            · exact absurd h1 hy
            · exact Or.inr h2
      obtain ⟨ih1, ih2⟩ := ih (E.set s a.id true) (rsInsert d a.id) hinv2
      have heq : init_repair_asserts E (a :: rest) (s, d)
          = init_repair_asserts E rest (E.set s a.id true, rsInsert d a.id) := by
        simp [init_repair_asserts, hb]
      rw [heq]
      refine ⟨ih1, fun x => ?_⟩
      rw [ih2 x, mem_rsInsert]
      constructor
      · rintro ((h1 | h1) | ⟨a2, ha2, hid, hfa⟩)
        · exact Or.inl h1
        · exact Or.inr ⟨a, List.mem_cons_self a rest, h1.symm, hs0⟩
        · exact Or.inr ⟨a2, List.mem_cons_of_mem a ha2, hid, hfa⟩
      · rintro (h1 | ⟨a2, ha2, hid, hfa⟩)
        · exact Or.inl (Or.inl h1)
        · rcases List.mem_cons.mp ha2 with rfl | ha3
          · exact Or.inl (Or.inr hid.symm)
          · exact Or.inr ⟨a2, ha3, hid, hfa⟩
    · have hb2 : E.bval0 s a.id = true := by
        cases hs : E.bval0 s a.id
        · exact absurd hs hb
        · rfl
      obtain ⟨ih1, ih2⟩ := ih s d hinv
      have heq : init_repair_asserts E (a :: rest) (s, d)
          = init_repair_asserts E rest (s, d) := by
        simp [init_repair_asserts, hb]
      rw [heq]
      refine ⟨ih1, fun x => ?_⟩
      rw [ih2 x]
      constructor
      · rintro (h1 | ⟨a2, ha2, hid, hfa⟩)
        · exact Or.inl h1
        · exact Or.inr ⟨a2, List.mem_cons_of_mem a ha2, hid, hfa⟩
      · rintro (h1 | ⟨a2, ha2, hid, hfa⟩)
        · exact Or.inl h1
        · rcases List.mem_cons.mp ha2 with rfl | ha3
          · rcases (hinv a2.id).mp hb2 with hd1 | hd2
            · exact Or.inl (hid ▸ hd1)
            · rw [hfa] at hd2
              exact Bool.noConfusion hd2
          · exact Or.inr ⟨a2, ha3, hid, hfa⟩

theorem init_repair_terms_mem (E : Env σ) (s : σ) :
    ∀ (ts : List (Option Node)) (d : List Nat) (x : Nat),
      x ∈ init_repair_terms E s ts d ↔
        x ∈ d ∨ ∃ t : Node, some t ∈ ts ∧ t.id = x ∧ eval_is_correct E s t = false := by
  intro ts
  induction ts with
  | nil =>
    intro d x
    simp [init_repair_terms]
  | cons o rest ih =>
    intro d x
    cases o with
    | none =>
      rw [show init_repair_terms E s (none :: rest) d = init_repair_terms E s rest d
        from rfl, ih]
      constructor
      · rintro (h1 | ⟨t, ht, hid, hcc⟩)
        · exact Or.inl h1
        · exact Or.inr ⟨t, List.mem_cons_of_mem none ht, hid, hcc⟩
      · rintro (h1 | ⟨t, ht, hid, hcc⟩)
        · exact Or.inl h1
        · rcases List.mem_cons.mp ht with h2 | h3
          · exact absurd h2 (by simp)
          · exact Or.inr ⟨t, h3, hid, hcc⟩
    | some t0 =>
      by_cases hc0 : eval_is_correct E s t0 = false
      · rw [show init_repair_terms E s (some t0 :: rest) d
            = init_repair_terms E s rest (rsInsert d t0.id)
          from by simp [init_repair_terms, hc0], ih]
        constructor
        · rintro (h1 | ⟨t, ht, hid, hcc⟩)
          · rcases mem_rsInsert.mp h1 with h2 | h2
            · exact Or.inl h2
            · exact Or.inr ⟨t0, List.mem_cons_self _ _, h2.symm, hc0⟩
          · exact Or.inr ⟨t, List.mem_cons_of_mem _ ht, hid, hcc⟩
        · rintro (h1 | ⟨t, ht, hid, hcc⟩)
          · exact Or.inl (mem_rsInsert.mpr (Or.inl h1))
          · rcases List.mem_cons.mp ht with h2 | h3
            · have ht0 : t = t0 := Option.some.inj h2
              subst ht0
              exact Or.inl (mem_rsInsert.mpr (Or.inr hid.symm))
            · exact Or.inr ⟨t, h3, hid, hcc⟩
      · rw [show init_repair_terms E s (some t0 :: rest) d = init_repair_terms E s rest d
          from by simp [init_repair_terms, hc0], ih]
        constructor
        · rintro (h1 | ⟨t, ht, hid, hcc⟩)
          · exact Or.inl h1
          · exact Or.inr ⟨t, List.mem_cons_of_mem _ ht, hid, hcc⟩
        · rintro (h1 | ⟨t, ht, hid, hcc⟩)
          · exact Or.inl h1
          · rcases List.mem_cons.mp ht with h2 | h3
            · have ht0 : t = t0 := Option.some.inj h2
              subst ht0
              exact absurd hcc hc0
            · exact Or.inr ⟨t, h3, hid, hcc⟩

/-- C2: after `init_repair` (run at initialization and after every restart,
assuming the evaluator's `set` only overwrites the value of the node it is
given and that `can_eval1` holds for the listed terms once the assertion pass
is done, as `init_eval`'s bottom-up evaluation guarantees), the up set is
empty, every assertion ends up with `val0 = true` (false ones having been
`set(a, true)`), and the down set holds exactly the assertions whose `bval0`
was false at entry plus the internal nodes with `can_eval1` that are not
correct — and nothing else. -/
theorem init_repair_spec (E : Env σ) (s0 : σ)
    (hset : ∀ (s : σ) (x : Nat) (b : Bool) (y : Nat),
      E.bval0 (E.set s x b) y = if y = x then b else E.bval0 s y)
    (hcan : ∀ t : Node, some t ∈ E.terms →
      E.canEval1 (init_repair_asserts E E.assertions (s0, [])).1 t.id = true) :
    (init_repair E s0).2.2 = []
    ∧ (∀ a ∈ E.assertions, E.bval0 (init_repair E s0).1 a.id = true)
    ∧ (∀ x : Nat, x ∈ (init_repair E s0).2.1 ↔
        (∃ a ∈ E.assertions, a.id = x ∧ E.bval0 s0 a.id = false)
        ∨ (∃ t : Node, some t ∈ E.terms ∧ t.id = x
            ∧ E.canEval1 (init_repair_asserts E E.assertions (s0, [])).1 t.id = true
            ∧ eval_is_correct E (init_repair_asserts E E.assertions (s0, [])).1 t = false)) := by
  obtain ⟨h1, h2⟩ := init_repair_asserts_char E s0 hset E.assertions s0 [] (by simp)
  refine ⟨rfl, ?_, ?_⟩
  · intro a ha
    show E.bval0 (init_repair_asserts E E.assertions (s0, [])).1 a.id = true
    cases hs : E.bval0 s0 a.id with
    | true => exact (h1 a.id).mpr (Or.inr hs)
    | false =>
      exact (h1 a.id).mpr (Or.inl ((h2 a.id).mpr (Or.inr ⟨a, ha, rfl, hs⟩)))
  · intro x
    show x ∈ init_repair_terms E (init_repair_asserts E E.assertions (s0, [])).1 E.terms
        (init_repair_asserts E E.assertions (s0, [])).2 ↔ _
    rw [init_repair_terms_mem, h2 x]
    constructor
    · rintro ((h3 | h3) | ⟨t, ht, hid, hcc⟩)
      · exact absurd h3 (List.not_mem_nil x)
      · exact Or.inl h3
      · exact Or.inr ⟨t, ht, hid, hcan t ht, hcc⟩
    · rintro (h3 | ⟨t, ht, hid, -, hcc⟩)
      · exact Or.inl (Or.inr h3)
      · exact Or.inr ⟨t, ht, hid, hcc⟩

theorem init_repair_spec_witness :
    (2 : Nat) ∈ (init_repair baseEnv (fun _ => false)).2.1 := by
  have h := (init_repair_spec baseEnv (fun _ => false) (fun _ _ _ _ => rfl)
    (fun _ _ => rfl)).2.2 2
  exact h.mpr (Or.inr ⟨node2, by decide, rfl, rfl, by decide⟩)

theorem trdIterFrom_shift (E : Env σ) (e : Node) (n s i : Nat) (st : SchedState σ) :
    ∀ j, trdIterFrom E e n s (i + 1) (try_repair_down1 E e ((i + s) % n) st).2 j
        = trdIterFrom E e n s i st (j + 1) := by
  intro j
  induction j with
  | zero => rfl
  | succ j ih =>
    show (try_repair_down1 E e ((i + 1 + j + s) % n)
        (trdIterFrom E e n s (i + 1) (try_repair_down1 E e ((i + s) % n) st).2 j)).2 = _
    rw [ih, show i + 1 + j = i + (j + 1) from by omega]
    rfl

theorem trdLoop_charact (E : Env σ) (e : Node) (n s : Nat) :
    ∀ (fuel i : Nat) (st : SchedState σ),
      ∃ k, k ≤ fuel
      ∧ (∀ j < k,
          (try_repair_down1 E e ((i + j + s) % n) (trdIterFrom E e n s i st j)).1 = false)
      ∧ ((k < fuel
            ∧ (try_repair_down1 E e ((i + k + s) % n) (trdIterFrom E e n s i st k)).1 = true
            ∧ trdLoop E e n s i fuel st = (true, trdIterFrom E e n s i st (k + 1)))
         ∨ (k = fuel ∧ trdLoop E e n s i fuel st = (false, trdIterFrom E e n s i st fuel))) := by
  intro fuel
  induction fuel with
  | zero =>
    intro i st
    exact ⟨0, Nat.le_refl 0, fun j hj => absurd hj (Nat.not_lt_zero j), Or.inr ⟨rfl, rfl⟩⟩
  | succ fuel ih =>
    intro i st
    by_cases hb : (try_repair_down1 E e ((i + s) % n) st).1 = true
    · refine ⟨0, Nat.zero_le _, fun j hj => absurd hj (Nat.not_lt_zero j),
        Or.inl ⟨Nat.succ_pos fuel, hb, ?_⟩⟩
      show trdLoop E e n s i (fuel + 1) st = _
      simp only [trdLoop]
      rw [if_pos hb]
      rfl
    · have hb2 : (try_repair_down1 E e ((i + s) % n) st).1 = false := by simpa using hb
      obtain ⟨k, hk, hfail, hres⟩ := ih (i + 1) (try_repair_down1 E e ((i + s) % n) st).2
      have hloop : trdLoop E e n s i (fuel + 1) st
          = trdLoop E e n s (i + 1) fuel (try_repair_down1 E e ((i + s) % n) st).2 := by
        simp only [trdLoop]
        rw [if_neg hb]
      refine ⟨k + 1, Nat.succ_le_succ hk, ?_, ?_⟩
      · intro j hj
        cases j with
        | zero => exact hb2
        | succ m =>
          have hm : m < k := Nat.lt_of_succ_lt_succ hj
          have hf := hfail m hm
          rw [trdIterFrom_shift E e n s i st m,
            show i + 1 + m = i + (m + 1) from by omega] at hf
          exact hf
      · rcases hres with ⟨hlt, htrue, heq⟩ | ⟨heqk, heq⟩
        · rw [trdIterFrom_shift E e n s i st k,
            show i + 1 + k = i + (k + 1) from by omega] at htrue
          refine Or.inl ⟨Nat.succ_lt_succ hlt, htrue, ?_⟩
          rw [hloop, heq, trdIterFrom_shift E e n s i st (k + 1)]
        · refine Or.inr ⟨by omega, ?_⟩
          rw [hloop, heq, trdIterFrom_shift E e n s i st fuel]

theorem rsInsert_nodup {d : List Nat} (h : d.Nodup) (x : Nat) : (rsInsert d x).Nodup := by
  unfold rsInsert
  split
  · exact h
  · next hx =>
    rw [List.nodup_append]
    exact ⟨h, List.nodup_singleton x,
      fun a ha hb => absurd (List.mem_singleton.mp hb ▸ ha) hx⟩

theorem trd1_down_mono (E : Env σ) (e : Node) (i : Nat) (st : SchedState σ) {x : Nat}
    (h : x ∈ st.down) : x ∈ (try_repair_down1 E e i st).2.down := by
  by_cases hb : (E.tryRepair st.eval e.id i).2 = true
  · rw [trd1_success_eq E e i st hb]
    exact mem_rsInsert.mpr (Or.inl h)
  · rw [trd1_fail_eq E e i st (by simpa using hb)]
    exact h

theorem trd1_down_nodup (E : Env σ) (e : Node) (i : Nat) (st : SchedState σ)
    (h : st.down.Nodup) : (try_repair_down1 E e i st).2.down.Nodup := by
  by_cases hb : (E.tryRepair st.eval e.id i).2 = true
  · rw [trd1_success_eq E e i st hb]
    exact rsInsert_nodup h _
  · rw [trd1_fail_eq E e i st (by simpa using hb)]
    exact h

theorem trdIterFrom_down_mono (E : Env σ) (e : Node) (n s i : Nat) (st : SchedState σ)
    {x : Nat} (h : x ∈ st.down) :
    ∀ j, x ∈ (trdIterFrom E e n s i st j).down := by
  intro j
  induction j with
  | zero => exact h
  | succ j ih => exact trd1_down_mono E e _ _ ih

theorem trdIterFrom_down_nodup (E : Env σ) (e : Node) (n s i : Nat) (st : SchedState σ)
    (h : st.down.Nodup) :
    ∀ j, (trdIterFrom E e n s i st j).down.Nodup := by
  intro j
  induction j with
  | zero => exact h
  | succ j ih => exact trd1_down_nodup E e _ _ ih

theorem try_repair_down_eq_of_success (E : Env σ) (e : Node) (st : SchedState σ)
    (hn : 0 < e.args.length)
    (h : (trdLoop E e e.args.length (E.rand st.randK % e.args.length) 0 e.args.length
        { st with randK := st.randK + 1 }).1 = true) :
    try_repair_down E e st
      = (trdLoop E e e.args.length (E.rand st.randK % e.args.length) 0 e.args.length
          { st with randK := st.randK + 1 }).2 := by
  simp only [try_repair_down]
  rw [if_pos hn, if_pos h]

theorem try_repair_down_eq_of_fail (E : Env σ) (e : Node) (st : SchedState σ)
    (hn : 0 < e.args.length)
    (h : (trdLoop E e e.args.length (E.rand st.randK % e.args.length) 0 e.args.length
        { st with randK := st.randK + 1 }).1 = false) :
    try_repair_down E e st
      = { (trdLoop E e e.args.length (E.rand st.randK % e.args.length) 0 e.args.length
            { st with randK := st.randK + 1 }).2 with
          down := rsRemove (trdLoop E e e.args.length (E.rand st.randK % e.args.length) 0
              e.args.length { st with randK := st.randK + 1 }).2.down e.id,
          up := rsInsert (trdLoop E e e.args.length (E.rand st.randK % e.args.length) 0
              e.args.length { st with randK := st.randK + 1 }).2.up e.id } := by
  have hcond : ¬((trdLoop E e e.args.length (E.rand st.randK % e.args.length) 0 e.args.length
      { st with randK := st.randK + 1 }).1 = true) := by simp [h]
  simp only [try_repair_down]
  rw [if_pos hn, if_neg hcond]

/-- C5: on a node with `n ≥ 1` children, `try_repair_down` draws the starting
index `s = rand() % n < n` from the PRNG, tries the children at cyclic
positions `(j + s) % n` for `j = 0, 1, …` — all tries before the stopping
point failing — and stops at the first success, whose resulting state is the
state of the whole move (in particular `e` keeps its membership in the down
set); if all `n` children were unrepairable, `e` is removed from the down set
and inserted into the up set. -/
theorem try_repair_down_spec (E : Env σ) (e : Node) (st : SchedState σ)
    (hn : 0 < e.args.length) (hnd : st.down.Nodup) :
    E.rand st.randK % e.args.length < e.args.length
    ∧ ∃ k ≤ e.args.length,
        (∀ j < k,
          (try_repair_down1 E e ((j + E.rand st.randK % e.args.length) % e.args.length)
            (trdIterFrom E e e.args.length (E.rand st.randK % e.args.length) 0
              { st with randK := st.randK + 1 } j)).1 = false)
        ∧ ((k < e.args.length
              ∧ (try_repair_down1 E e
                    ((k + E.rand st.randK % e.args.length) % e.args.length)
                    (trdIterFrom E e e.args.length (E.rand st.randK % e.args.length) 0
                      { st with randK := st.randK + 1 } k)).1 = true
              ∧ try_repair_down E e st
                  = trdIterFrom E e e.args.length (E.rand st.randK % e.args.length) 0
                      { st with randK := st.randK + 1 } (k + 1)
              ∧ (e.id ∈ st.down → e.id ∈ (try_repair_down E e st).down))
           ∨ (k = e.args.length
              ∧ e.id ∉ (try_repair_down E e st).down
              ∧ e.id ∈ (try_repair_down E e st).up)) := by
  refine ⟨Nat.mod_lt _ hn, ?_⟩
  obtain ⟨k, hk, hfail, hres⟩ := trdLoop_charact E e e.args.length
    (E.rand st.randK % e.args.length) e.args.length 0 { st with randK := st.randK + 1 }
  refine ⟨k, hk, ?_, ?_⟩
  · intro j hj
    have hf := hfail j hj
    rw [Nat.zero_add] at hf
    exact hf
  · rcases hres with ⟨hlt, htrue, heq⟩ | ⟨hke, heq⟩
    · rw [Nat.zero_add] at htrue
      have hsucc : try_repair_down E e st
          = trdIterFrom E e e.args.length (E.rand st.randK % e.args.length) 0
              { st with randK := st.randK + 1 } (k + 1) := by
        rw [try_repair_down_eq_of_success E e st hn (by rw [heq]), heq]
      refine Or.inl ⟨hlt, htrue, hsucc, ?_⟩
      intro hmem
      rw [hsucc]
      exact trdIterFrom_down_mono E e e.args.length (E.rand st.randK % e.args.length) 0
        { st with randK := st.randK + 1 } hmem (k + 1)
    · have hfl : try_repair_down E e st
          = { (trdLoop E e e.args.length (E.rand st.randK % e.args.length) 0 e.args.length
                { st with randK := st.randK + 1 }).2 with
              down := rsRemove (trdLoop E e e.args.length
                  (E.rand st.randK % e.args.length) 0 e.args.length
                  { st with randK := st.randK + 1 }).2.down e.id,
              up := rsInsert (trdLoop E e e.args.length
                  (E.rand st.randK % e.args.length) 0 e.args.length
                  { st with randK := st.randK + 1 }).2.up e.id } :=
        try_repair_down_eq_of_fail E e st hn (by rw [heq])
      refine Or.inr ⟨hke, ?_, ?_⟩
      · rw [hfl]
        have hnd2 : (trdLoop E e e.args.length (E.rand st.randK % e.args.length) 0
            e.args.length { st with randK := st.randK + 1 }).2.down.Nodup := by
          rw [heq]
          exact trdIterFrom_down_nodup E e e.args.length (E.rand st.randK % e.args.length) 0
            { st with randK := st.randK + 1 } hnd e.args.length
        exact hnd2.not_mem_erase
      · rw [hfl]
        exact mem_rsInsert.mpr (Or.inr rfl)

theorem trd1_counters (E : Env σ) (e : Node) (i : Nat) (st : SchedState σ) :
    (try_repair_down1 E e i st).2.moves = st.moves
    ∧ (try_repair_down1 E e i st).2.restarts = st.restarts := by
  by_cases hb : (E.tryRepair st.eval e.id i).2 = true
  · rw [trd1_success_eq E e i st hb]
    exact ⟨rfl, rfl⟩
  · rw [trd1_fail_eq E e i st (by simpa using hb)]
    exact ⟨rfl, rfl⟩

theorem trdLoop_counters (E : Env σ) (e : Node) (n s : Nat) :
    ∀ (fuel i : Nat) (st : SchedState σ),
      (trdLoop E e n s i fuel st).2.moves = st.moves
      ∧ (trdLoop E e n s i fuel st).2.restarts = st.restarts := by
  intro fuel
  induction fuel with
  | zero =>
    intro i st
    exact ⟨rfl, rfl⟩
  | succ fuel ih =>
    intro i st
    simp only [trdLoop]
    by_cases hb : (try_repair_down1 E e ((i + s) % n) st).1 = true
    · rw [if_pos hb]
      exact trd1_counters E e _ st
    · rw [if_neg hb]
      obtain ⟨h1, h2⟩ := ih (i + 1) (try_repair_down1 E e ((i + s) % n) st).2
      obtain ⟨g1, g2⟩ := trd1_counters E e ((i + s) % n) st
      exact ⟨h1.trans g1, h2.trans g2⟩

theorem try_repair_down_counters (E : Env σ) (e : Node) (st : SchedState σ) :
    (try_repair_down E e st).moves = st.moves
    ∧ (try_repair_down E e st).restarts = st.restarts := by
  by_cases hn : 0 < e.args.length
  · by_cases hb : (trdLoop E e e.args.length (E.rand st.randK % e.args.length) 0
        e.args.length { st with randK := st.randK + 1 }).1 = true
    · rw [try_repair_down_eq_of_success E e st hn hb]
      exact trdLoop_counters E e _ _ _ _ _
    · rw [try_repair_down_eq_of_fail E e st hn (by simpa using hb)]
      exact trdLoop_counters E e _ _ _ _ _
  · have heq : try_repair_down E e st
        = { st with down := rsRemove st.down e.id, up := rsInsert st.up e.id } := by
      simp only [try_repair_down]
      rw [if_neg hn]
    rw [heq]
    exact ⟨rfl, rfl⟩

theorem try_repair_up_counters (E : Env σ) (e : Node) (st : SchedState σ) :
    (try_repair_up E e st).moves = st.moves
    ∧ (try_repair_up E e st).restarts = st.restarts := by
  by_cases ha : E.isAssertion e.id = true
  · simp [try_repair_up, ha]
  · have ha2 : E.isAssertion e.id = false := by simpa using ha
    simp [try_repair_up, ha2]

theorem search_loop_succ_cases (E : Env σ) (fuel : Nat) (st : SchedState σ) :
    (E.inc st.incK = false
      ∧ search_loop E (fuel + 1) st = (LBool.lundef, { st with incK := st.incK + 1 }))
    ∨ (E.inc st.incK = true ∧ st.down = [] ∧ st.up = []
      ∧ search_loop E (fuel + 1) st
          = (LBool.ltrue, { st with incK := st.incK + 1, moves := st.moves + 1 }))
    ∨ (E.inc st.incK = true ∧ (st.down ≠ [] ∨ st.up ≠ [])
      ∧ ∃ st2 : SchedState σ, st2.moves = st.moves + 1 ∧ st2.restarts = st.restarts
          ∧ search_loop E (fuel + 1) st = search_loop E fuel st2) := by
  by_cases hinc : E.inc st.incK = false
  · left
    refine ⟨hinc, ?_⟩
    simp only [search_loop]
    rw [if_pos hinc]
  · have hinct : E.inc st.incK = true := by simpa using hinc
    right
    by_cases hd : st.down = []
    · by_cases hu : st.up = []
      · left
        refine ⟨hinct, hd, hu, ?_⟩
        simp only [search_loop]
        rw [if_neg hinc,
          ntr_none_eq E { st with incK := st.incK + 1, moves := st.moves + 1 } hd hu]
      · right
        refine ⟨hinct, Or.inr hu, ?_⟩
        have hunf : search_loop E (fuel + 1) st
            = (if eval_is_correct E st.eval
                  (E.term (st.up.getD (E.rand st.randK % st.up.length) 0)) = true
               then search_loop E fuel
                  { st with incK := st.incK + 1, moves := st.moves + 1, randK := st.randK + 1, picks := st.picks ++ [(false, (E.term (st.up.getD (E.rand st.randK % st.up.length) 0)).id)], up := rsRemove st.up (E.term (st.up.getD (E.rand st.randK % st.up.length) 0)).id }
               else search_loop E fuel
                  (try_repair_up E (E.term (st.up.getD (E.rand st.randK % st.up.length) 0))
                    { st with incK := st.incK + 1, moves := st.moves + 1, randK := st.randK + 1, picks := st.picks ++ [(false, (E.term (st.up.getD (E.rand st.randK % st.up.length) 0)).id)] })) := by
          simp only [search_loop]
          rw [if_neg hinc,
            ntr_up_eq E { st with incK := st.incK + 1, moves := st.moves + 1 } hd hu]
          rfl
        by_cases hc : eval_is_correct E st.eval
            (E.term (st.up.getD (E.rand st.randK % st.up.length) 0)) = true
        · refine ⟨{ st with incK := st.incK + 1, moves := st.moves + 1, randK := st.randK + 1, picks := st.picks ++ [(false, (E.term (st.up.getD (E.rand st.randK % st.up.length) 0)).id)], up := rsRemove st.up (E.term (st.up.getD (E.rand st.randK % st.up.length) 0)).id },
            rfl, rfl, ?_⟩
          rw [hunf, if_pos hc]
        · refine ⟨try_repair_up E (E.term (st.up.getD (E.rand st.randK % st.up.length) 0))
              { st with incK := st.incK + 1, moves := st.moves + 1, randK := st.randK + 1, picks := st.picks ++ [(false, (E.term (st.up.getD (E.rand st.randK % st.up.length) 0)).id)] },
            ?_, ?_, ?_⟩
          · exact (try_repair_up_counters E _ _).1
          · exact (try_repair_up_counters E _ _).2
          · rw [hunf, if_neg hc]
    · right
      refine ⟨hinct, Or.inl hd, ?_⟩
      have hunf : search_loop E (fuel + 1) st
          = (if eval_is_correct E st.eval
                (E.term (st.down.getD (E.rand st.randK % st.down.length) 0)) = true
             then search_loop E fuel
                { st with incK := st.incK + 1, moves := st.moves + 1, randK := st.randK + 1, picks := st.picks ++ [(true, (E.term (st.down.getD (E.rand st.randK % st.down.length) 0)).id)], down := rsRemove st.down (E.term (st.down.getD (E.rand st.randK % st.down.length) 0)).id }
             else search_loop E fuel
                (try_repair_down E (E.term (st.down.getD (E.rand st.randK % st.down.length) 0))
                  { st with incK := st.incK + 1, moves := st.moves + 1, randK := st.randK + 1, picks := st.picks ++ [(true, (E.term (st.down.getD (E.rand st.randK % st.down.length) 0)).id)] })) := by
        simp only [search_loop]
        rw [if_neg hinc,
          ntr_down_eq E { st with incK := st.incK + 1, moves := st.moves + 1 } hd]
        rfl
      by_cases hc : eval_is_correct E st.eval
          (E.term (st.down.getD (E.rand st.randK % st.down.length) 0)) = true
      · refine ⟨{ st with incK := st.incK + 1, moves := st.moves + 1, randK := st.randK + 1, picks := st.picks ++ [(true, (E.term (st.down.getD (E.rand st.randK % st.down.length) 0)).id)], down := rsRemove st.down (E.term (st.down.getD (E.rand st.randK % st.down.length) 0)).id },
          rfl, rfl, ?_⟩
        rw [hunf, if_pos hc]
      · refine ⟨try_repair_down E (E.term (st.down.getD (E.rand st.randK % st.down.length) 0))
            { st with incK := st.incK + 1, moves := st.moves + 1, randK := st.randK + 1, picks := st.picks ++ [(true, (E.term (st.down.getD (E.rand st.randK % st.down.length) 0)).id)] },
          ?_, ?_, ?_⟩
        · exact (try_repair_down_counters E _ _).1
        · exact (try_repair_down_counters E _ _).2
        · rw [hunf, if_neg hc]

theorem search_loop_ne_lfalse (E : Env σ) : ∀ (fuel : Nat) (st : SchedState σ),
    (search_loop E fuel st).1 ≠ LBool.lfalse := by
  intro fuel
  induction fuel with
  | zero =>
    intro st h
    exact LBool.noConfusion h
  | succ fuel ih =>
    intro st
    rcases search_loop_succ_cases E fuel st with ⟨-, heq⟩ | ⟨-, -, -, heq⟩ |
      ⟨-, -, st2, -, -, heq⟩
    · rw [heq]
      exact fun h => LBool.noConfusion h
    · rw [heq]
      exact fun h => LBool.noConfusion h
    · rw [heq]
      exact ih st2

theorem search_loop_ltrue_empty (E : Env σ) : ∀ (fuel : Nat) (st : SchedState σ),
    (search_loop E fuel st).1 = LBool.ltrue →
    (search_loop E fuel st).2.down = [] ∧ (search_loop E fuel st).2.up = [] := by
  intro fuel
  induction fuel with
  | zero =>
    intro st h
    exact absurd h (by simp [search_loop])
  | succ fuel ih =>
    intro st
    rcases search_loop_succ_cases E fuel st with ⟨-, heq⟩ | ⟨-, hd, hu, heq⟩ |
      ⟨-, -, st2, -, -, heq⟩
    · rw [heq]
      intro h
      exact absurd h (by simp)
    · rw [heq]
      intro _
      exact ⟨hd, hu⟩
    · rw [heq]
      exact ih st2

theorem search_loop_lundef_reason (E : Env σ) : ∀ (fuel : Nat) (st : SchedState σ),
    (search_loop E fuel st).1 = LBool.lundef →
    E.inc ((search_loop E fuel st).2.incK - 1) = false
    ∨ (search_loop E fuel st).2.moves = st.moves + fuel := by
  intro fuel
  induction fuel with
  | zero =>
    intro st _
    right
    rfl
  | succ fuel ih =>
    intro st
    rcases search_loop_succ_cases E fuel st with ⟨hinc, heq⟩ | ⟨-, -, -, heq⟩ |
      ⟨-, -, st2, hmv, -, heq⟩
    · rw [heq]
      intro _
      left
      simpa using hinc
    · rw [heq]
      intro h
      exact absurd h (by simp)
    · rw [heq]
      intro h
      rcases ih st2 h with h1 | h2
      · exact Or.inl h1
      · right
        rw [h2, hmv]
        omega

theorem search_loop_empty_ltrue (E : Env σ) (fuel : Nat) (st : SchedState σ)
    (h1 : 0 < fuel) (h2 : E.inc st.incK = true) (h3 : st.down = []) (h4 : st.up = []) :
    (search_loop E fuel st).1 = LBool.ltrue := by
  cases fuel with
  | zero => exact absurd h1 (Nat.lt_irrefl 0)
  | succ fuel =>
    rcases search_loop_succ_cases E fuel st with ⟨hinc, -⟩ | ⟨-, -, -, heq⟩ |
      ⟨-, hne, -, -, -, heq⟩
    · rw [h2] at hinc
      exact Bool.noConfusion hinc
    · rw [heq]
    · rcases hne with h5 | h5
      · exact absurd h3 h5
      · exact absurd h4 h5

theorem search_loop_restarts (E : Env σ) : ∀ (fuel : Nat) (st : SchedState σ),
    (search_loop E fuel st).2.restarts = st.restarts := by
  intro fuel
  induction fuel with
  | zero =>
    intro st
    rfl
  | succ fuel ih =>
    intro st
    rcases search_loop_succ_cases E fuel st with ⟨-, heq⟩ | ⟨-, -, -, heq⟩ |
      ⟨-, -, st2, -, hr, heq⟩
    · rw [heq]
    · rw [heq]
    · rw [heq, ih st2, hr]

theorem sls_loop_undef_eq (E : Env σ) (mr ms fuel : Nat) (st : SchedState σ)
    (h : (search E mr st).1 = LBool.lundef) :
    sls_loop E mr ms (fuel + 1) st
      = (if E.inc (reinit_eval E (trace (search E mr st).2)).incK = false then
           (LBool.lundef, { reinit_eval E (trace (search E mr st).2) with incK := (reinit_eval E (trace (search E mr st).2)).incK + 1 })
         else if (reinit_eval E (trace (search E mr st).2)).restarts < ms then
           sls_loop E mr ms fuel { reinit_eval E (trace (search E mr st).2) with incK := (reinit_eval E (trace (search E mr st).2)).incK + 1, restarts := (reinit_eval E (trace (search E mr st).2)).restarts + 1 }
         else (LBool.lundef, { reinit_eval E (trace (search E mr st).2) with incK := (reinit_eval E (trace (search E mr st).2)).incK + 1, restarts := (reinit_eval E (trace (search E mr st).2)).restarts + 1 })) := by
  simp only [sls_loop]
  rw [h]

/-- C7 (amended): after a `search` call returns unknown, the driver first
emits the trace line — reporting the restart counter before any increment
together with the post-search (pre-reinit) sizes of the down and up sets —
then reseeds the assignment with `reinit_eval`, and only then increments the
restart counter inside the loop guard `m.inc() && m_stats.m_restarts++ <
max_restarts`: the run continues exactly when the interrupt predicate
permits and the pre-increment counter was below `max_restarts`. -/
theorem sls_restart_spec (E : Env σ) (mr ms fuel : Nat) (st : SchedState σ)
    (h : (search E mr st).1 = LBool.lundef) :
    (search E mr st).2.restarts = st.restarts
    ∧ (trace (search E mr st).2).traceLog
        = (search E mr st).2.traceLog
          ++ [(st.restarts, (search E mr st).2.down.length, (search E mr st).2.up.length)]
    ∧ ∃ st3 : SchedState σ, st3 = reinit_eval E (trace (search E mr st).2)
        ∧ st3.restarts = st.restarts
        ∧ sls_loop E mr ms (fuel + 1) st
            = (if E.inc st3.incK = false then
                 (LBool.lundef, { st3 with incK := st3.incK + 1 })
               else if st.restarts < ms then
                 sls_loop E mr ms fuel { st3 with incK := st3.incK + 1, restarts := st3.restarts + 1 }
               else (LBool.lundef, { st3 with incK := st3.incK + 1, restarts := st3.restarts + 1 })) := by
  have hrs : (search E mr st).2.restarts = st.restarts := search_loop_restarts E mr st
  refine ⟨hrs, ?_, ?_⟩
  · rw [← hrs]
    rfl
  · refine ⟨reinit_eval E (trace (search E mr st).2), rfl, hrs, ?_⟩
    rw [sls_loop_undef_eq E mr ms fuel st h]
    simp only [show (reinit_eval E (trace (search E mr st).2)).restarts = st.restarts from hrs]

theorem sls_restart_spec_witness :
    (trace (search baseEnv 0 st0).2).traceLog
      = (search baseEnv 0 st0).2.traceLog
        ++ [(st0.restarts, (search baseEnv 0 st0).2.down.length,
             (search baseEnv 0 st0).2.up.length)] :=
  (sls_restart_spec baseEnv 0 1 0 st0 rfl).2.1

/-- C7 counterexample: with `max_repairs = 0` (every `search` call exhausts
its budget at once) and `max_restarts = 1`, the first trace line of the run
reports restart count 0, because `trace()` runs before the counter is
post-incremented in the loop guard; under the claimed order (increment, then
trace) the first line would report 1 with the same set sizes. -/
theorem sls_trace_order_counterexample :
    ((sls_run baseEnv 0 1 st0).2.traceLog).head? = some (0, 0, 0)
    ∧ ((sls_run baseEnv 0 1 st0).2.traceLog).head? ≠ some (1, 0, 0) := by
  constructor
  · decide
  · decide

/-- C1: every run of `search` (`search_loop` with the `max_repairs` budget as
fuel) never answers `l_false`; when it answers `l_true` the final state has
both repair sets empty (the pick found nothing to repair); when it answers
`l_undef` either the last consulted `m.inc()` said to stop or exactly the
whole move budget was consumed; and conversely a state with both repair sets
empty, remaining budget and a permitting interrupt predicate is answered
`l_true`. -/
theorem search_result_spec (E : Env σ) (maxRepairs : Nat) (st : SchedState σ) :
    (search E maxRepairs st).1 ≠ LBool.lfalse
    ∧ ((search E maxRepairs st).1 = LBool.ltrue →
        (search E maxRepairs st).2.down = [] ∧ (search E maxRepairs st).2.up = [])
    ∧ ((search E maxRepairs st).1 = LBool.lundef →
        E.inc ((search E maxRepairs st).2.incK - 1) = false
        ∨ (search E maxRepairs st).2.moves = st.moves + maxRepairs)
    ∧ (0 < maxRepairs → E.inc st.incK = true → st.down = [] → st.up = [] →
        (search E maxRepairs st).1 = LBool.ltrue) :=
  ⟨search_loop_ne_lfalse E maxRepairs st,
   search_loop_ltrue_empty E maxRepairs st,
   search_loop_lundef_reason E maxRepairs st,
   fun h1 h2 h3 h4 => search_loop_empty_ltrue E maxRepairs st h1 h2 h3 h4⟩

theorem search_result_spec_witness :
    (search baseEnv 1 st0).1 = LBool.ltrue :=
  (search_result_spec baseEnv 1 st0).2.2.2 (by decide) rfl rfl rfl

theorem try_repair_down_spec_witness :
    node2.id ∉ (try_repair_down baseEnv node2 stDown2).down
    ∧ node2.id ∈ (try_repair_down baseEnv node2 stDown2).up := by
  obtain ⟨-, k, hk, -, hres⟩ :=
    try_repair_down_spec baseEnv node2 stDown2 (by decide) (by decide)
  rcases hres with ⟨hlt, htrue, -, -⟩ | ⟨-, h1, h2⟩
  · have hk0 : k = 0 := by
      have : node2.args.length = 1 := by decide
      omega
    subst hk0
    exact absurd htrue (by decide)
  · exact ⟨h1, h2⟩

/-- C6: the keep-mostly oracle of `reinit_eval` answers a fixed Boolean node
with its current value and a bit-vector node whose queried bit is fixed with
that bit's current value, in both cases without consuming the random stream
(the counter is returned unchanged), so the answer is independent of any
random draw and every restart hands the fixed bits back unchanged. -/
theorem reinit_oracle_preserves_fixed (E : Env σ) (s : σ) (e : Node) (i k : Nat) :
    (e.sort = ESort.bool → E.isFixed0 s e.id = true →
      reinit_oracle E s e i k = (E.bval0 s e.id, k))
    ∧ (e.sort = ESort.bv → E.fixedBit s e.id i = true →
      reinit_oracle E s e i k = (E.bitsBit s e.id i, k)) := by
  constructor
  · intro hs hf
    simp [reinit_oracle, hs, hf]
  · intro hs hf
    simp [reinit_oracle, hs, hf]

theorem reinit_oracle_preserves_fixed_witness :
    reinit_oracle baseEnv (fun _ => true) node1 0 5 = (true, 5) :=
  (reinit_oracle_preserves_fixed baseEnv (fun _ => true) node1 0 5).1 rfl rfl

/-- C8 (amended reading is not needed: the statement holds): two runs of
`operator()` over equal environments — same terms, assertions, evaluator
behaviour and the pseudo-random stream determined by the same seed — with
equal budgets and equal initial states return the same outcome and produce
identical pick sequences; in this embedding every random choice and interrupt
is read from the environment's streams, so the run is a pure function of its
inputs. -/
theorem sls_run_deterministic (E1 E2 : Env σ) (mr1 mr2 ms1 ms2 : Nat)
    (s1 s2 : SchedState σ) (hE : E1 = E2) (hmr : mr1 = mr2) (hms : ms1 = ms2)
    (hst : s1 = s2) :
    (sls_run E1 mr1 ms1 s1).1 = (sls_run E2 mr2 ms2 s2).1
    ∧ (sls_run E1 mr1 ms1 s1).2.picks = (sls_run E2 mr2 ms2 s2).2.picks := by
  subst hE
  subst hmr
  subst hms
  subst hst
  exact ⟨rfl, rfl⟩

theorem sls_run_deterministic_witness :
    (sls_run baseEnv 3 1 st0).1 = (sls_run baseEnv 3 1 st0).1
    ∧ (sls_run baseEnv 3 1 st0).2.picks = (sls_run baseEnv 3 1 st0).2.picks :=
  sls_run_deterministic baseEnv baseEnv 3 3 1 1 st0 st0 rfl rfl rfl rfl

/-- C9 (amended): `updt_params` performs no validation whatsoever: it
unconditionally installs `max_restarts` into the configuration and reseeds
the generator with `random_seed` (zero and any other value included), and it
does not read `max_repairs` at all, leaving that configuration field
untouched. -/
theorem updt_params_installs (p : SlsParams) (cfg : Config) (seedState : Nat) :
    (updt_params p cfg seedState).1.m_max_restarts = p.max_restarts
    ∧ (updt_params p cfg seedState).2 = p.random_seed
    ∧ (updt_params p cfg seedState).1.m_max_repairs = cfg.m_max_repairs :=
  ⟨rfl, rfl, rfl⟩

/-- C9 counterexample: the configuration `max_restarts = 0, random_seed = 0` —
not a positive integer, hence invalid according to the claim — is not
rejected: `updt_params` succeeds and installs both zeros. -/
theorem updt_params_counterexample :
    updt_params ⟨0, 0⟩ ⟨5, 7⟩ 3 = (⟨5, 0⟩, 0) := rfl

/-- C10: on a node with zero children (`e.args = []`), `try_repair_down`
attempts no child repair — the evaluator state and the random counter are
left untouched — and unconditionally moves the node from the down set to the
up set. -/
theorem try_repair_down_leaf (E : Env σ) (e : Node) (st : SchedState σ)
    (h : e.args = []) (hnd : st.down.Nodup) :
    try_repair_down E e st
        = { st with down := rsRemove st.down e.id, up := rsInsert st.up e.id }
    ∧ (try_repair_down E e st).eval = st.eval
    ∧ (try_repair_down E e st).randK = st.randK
    ∧ e.id ∈ (try_repair_down E e st).up
    ∧ e.id ∉ (try_repair_down E e st).down := by
  have heq : try_repair_down E e st
      = { st with down := rsRemove st.down e.id, up := rsInsert st.up e.id } := by
    simp [try_repair_down, h]
  refine ⟨heq, by rw [heq], by rw [heq], ?_, ?_⟩
  · rw [heq]
    exact mem_rsInsert.mpr (Or.inr rfl)
  · rw [heq]
    exact hnd.not_mem_erase

theorem try_repair_down_leaf_witness :
    node1.id ∈ (try_repair_down baseEnv node1 stDown5).up
    ∧ node1.id ∉ (try_repair_down baseEnv node1 stDown5).down := by
  have h := try_repair_down_leaf baseEnv node1 stDown5 rfl (by decide)
  exact ⟨h.2.2.2.1, h.2.2.2.2⟩

end BvSls
